import Mathlib

/-!
Verification of the style-extraction pipeline of the shadcn repository.

The definitions below are a shallow embedding of the TypeScript source,
primarily of the most complete draft of the pipeline (src/unnamed/part_004,
whose functions are named getRootFunction, getTypeInfo, getTypeString,
toValidFunctionName, addParameter, runManipulations, createStyleObject,
processSource, removeUnusedImports).  Machinery that lives inside ts-morph
(symbol resolution, reference search, file paths) is represented by data
supplied to the embedded functions; everything the repository itself
computes is translated directly from its code.
-/

namespace ExtractStyles

/-! ## String utilities for toValidFunctionName (part_004 lines 885-950)

JavaScript semantics that the source relies on: `String.prototype.trim`,
the regex replace `[^a-zA-Z0-9_$] -> " "`, `split(/\s+/)` (which keeps an
empty leading/trailing token when the string starts or ends with a
whitespace run), `charAt(0).toUpperCase() + slice(1)`, the
`/^[a-zA-Z_$]/` test, and the reserved-word set. -/

/-- Whitespace characters recognised by the JavaScript `trim` and `\s`
used on the ASCII-plus-NBSP inputs this pipeline feeds them. -/
def isJsWhitespace (c : Char) : Bool :=
  c = ' ' || c = '\t' || c = '\n' || c = '\r' || c = '\x0b' || c = '\x0c' || c = ' '

/-- `input.trim()`. -/
def jsTrim (s : String) : String :=
  String.mk (((s.toList.dropWhile isJsWhitespace).reverse.dropWhile isJsWhitespace).reverse)

/-- Membership in the character class `[a-zA-Z0-9_$]`. -/
def isIdentChar (c : Char) : Bool :=
  ('a' ≤ c && c ≤ 'z') || ('A' ≤ c && c ≤ 'Z') || ('0' ≤ c && c ≤ '9') || c = '_' || c = '$'

/-- Membership in the character class `[a-zA-Z_$]` (valid identifier start). -/
def isIdentStart (c : Char) : Bool :=
  ('a' ≤ c && c ≤ 'z') || ('A' ≤ c && c ≤ 'Z') || c = '_' || c = '$'

/-- `split(/\s+/)` on a character list: whitespace runs separate tokens, and
a leading or trailing run contributes an empty token, exactly as in
JavaScript.  `acc` holds the current token reversed, `lastWs` records
whether the previous character belonged to a whitespace run. -/
def splitWsRuns : List Char → List Char → Bool → List String
  | [], acc, _ => [String.mk acc.reverse]
  | c :: rest, acc, lastWs =>
    if isJsWhitespace c then
      if lastWs then
        splitWsRuns rest [] true
      else
        String.mk acc.reverse :: splitWsRuns rest [] true
    else
      splitWsRuns rest (c :: acc) false

/-- `word.charAt(0).toUpperCase() + word.slice(1)` (part_004 line 896): the
first character is upper-cased, the rest of the word is kept as written. -/
def capitalizeWord (w : String) : String :=
  match w.toList with
  | [] => ""
  | c :: rest => String.mk (c.toUpper :: rest)

/-- The reserved-word set of part_004 lines 905-943. -/
def reservedWords : List String :=
  ["break", "case", "catch", "class", "const", "continue", "debugger", "default",
   "delete", "do", "else", "enum", "export", "extends", "false", "finally", "for",
   "function", "if", "import", "in", "instanceof", "new", "null", "return", "super",
   "switch", "this", "throw", "true", "try", "typeof", "var", "void", "while",
   "with", "yield"]

/-- `toValidFunctionName` of part_004 lines 885-950: throws on a blank
input, strips invalid characters to spaces, upper-cases the first letter of
every token, prefixes `_` when the first character is still invalid, and
appends `_fn` on a reserved-word collision.  A thrown `Error` is modelled
as `Except.error` carrying the message. -/
def toValidFunctionName (input : String) : Except String String :=
  if jsTrim input = "" then
    Except.error "Input must be a non-empty string."
  else
    let replaced := (jsTrim input).toList.map (fun c => if isIdentChar c then c else ' ')
    let words := splitWsRuns replaced [] false
    let sanitized := String.join (words.map capitalizeWord)
    let sanitized2 :=
      match sanitized.toList with
      | [] => "_" ++ sanitized
      | c :: _ => if isIdentStart c then sanitized else "_" ++ sanitized
    Except.ok (if reservedWords.contains sanitized2 then sanitized2 ++ "_fn" else sanitized2)

/-! Helper facts used by the toValidFunctionName claims. -/

theorem all_dropWhile_iff (p : Char → Bool) (l : List Char) :
    (∀ x ∈ l.dropWhile p, p x = true) ↔ ∀ x ∈ l, p x = true := by
  constructor
  · intro h x hx
    rw [← List.takeWhile_append_dropWhile (p := p) (l := l)] at hx
    rcases List.mem_append.mp hx with h1 | h2
    · exact List.mem_takeWhile_imp h1
    · exact h x h2
  · intro h x hx
    exact h x ((List.dropWhile_sublist (l := l) (p := p)).subset hx)

theorem dropWhile_reverse_dropWhile_eq_nil_iff (p : Char → Bool) (l : List Char) :
    ((l.dropWhile p).reverse.dropWhile p).reverse = [] ↔ ∀ c ∈ l, p c = true := by
  rw [List.reverse_eq_nil_iff, List.dropWhile_eq_nil_iff]
  constructor
  · intro h
    refine (all_dropWhile_iff p l).mp ?_
    intro x hx
    exact h x (List.mem_reverse.mpr hx)
  · intro h x hx
    exact h x ((List.dropWhile_sublist (l := l) (p := p)).subset (List.mem_reverse.mp hx))

theorem jsTrim_eq_empty_iff (s : String) :
    jsTrim s = "" ↔ ∀ c ∈ s.toList, isJsWhitespace c = true := by
  rw [← dropWhile_reverse_dropWhile_eq_nil_iff isJsWhitespace s.toList]
  unfold jsTrim
  constructor
  · intro h
    have := congrArg String.toList h
    simpa using this
  · intro h
    rw [h]

/-- Claim C10: the identifier sanitizer throws `Error("Input must be a
non-empty string.")` exactly when its input consists only of whitespace
(including the empty string), and returns a result without throwing for
every other string.  In the embedding every input is a string, so the
`typeof input !== "string"` disjunct of the guard is vacuous. -/
theorem toValidFunctionName_error_iff (s : String) :
    (toValidFunctionName s = Except.error "Input must be a non-empty string."
      ↔ ∀ c ∈ s.toList, isJsWhitespace c = true)
    ∧ ((toValidFunctionName s).isOk = true ↔ ¬ ∀ c ∈ s.toList, isJsWhitespace c = true) := by
  unfold toValidFunctionName
  by_cases h : jsTrim s = ""
  · have hall := (jsTrim_eq_empty_iff s).mp h
    rw [if_pos h]
    refine ⟨⟨fun _ => hall, fun _ => rfl⟩, ⟨fun hk => ?_, fun hn => absurd hall hn⟩⟩
    simp [Except.isOk, Except.toBool] at hk
  · have h2 : ¬ ∀ c ∈ s.toList, isJsWhitespace c = true := fun hall =>
      h ((jsTrim_eq_empty_iff s).mpr hall)
    rw [if_neg h]
    exact ⟨⟨fun heq => Except.noConfusion heq, fun hall => absurd hall h2⟩,
      ⟨fun _ => h2, fun _ => rfl⟩⟩

/-- Claim C5 counterexample: the sanitizer that actually derives
StyleFunction names (part_004 lines 885-950, called from processSource line
681) capitalizes every token, so the reserved word "class" becomes "Class"
and not "class_fn". -/
theorem toValidFunctionName_class_ne_class_fn :
    toValidFunctionName "class" = Except.ok "Class"
      ∧ toValidFunctionName "class" ≠ Except.ok "class_fn" := by
  have h1 : toValidFunctionName "class" = Except.ok "Class" := rfl
  refine ⟨h1, fun h => ?_⟩
  rw [h1] at h
  exact absurd (Except.ok.inj h) (by decide)

/-- Claim C5 as amended: the sanitizer maps "2for-each Styling" to
"_2forEachStyling", whose first character is "_", and maps "class" to
exactly "Class" (every token, including the first, is capitalized, so a
lower-case reserved word never survives to the reserved-word check). -/
theorem toValidFunctionName_examples :
    toValidFunctionName "2for-each Styling" = Except.ok "_2forEachStyling"
      ∧ (("_2forEachStyling" : String).take 1 = "_")
      ∧ toValidFunctionName "class" = Except.ok "Class" := by
  refine ⟨rfl, rfl, rfl⟩

/-! ## Root and ancestor resolver (part_004 lines 602-615)

A markup element is represented by its chain of AST ancestors in the order
ts-morph `getAncestors()` returns them: nearest parent first, source file
last.  Each ancestor carries its syntax kind and, when it is a function
declaration or a variable declaration, its declared name (`none` for an
anonymous declaration, which JavaScript template interpolation renders as
the string "undefined"). -/

/-- The syntax kinds the resolver inspects. -/
inductive NodeKind where
  | arrowFunction
  | functionDeclaration
  | variableDeclaration
  | jsxElement
  | other
  deriving DecidableEq, Repr

/-- One ancestor node of a markup element. -/
structure AncNode where
  kind : NodeKind
  name : Option String
  deriving DecidableEq, Repr

/-- The ancestor filter of part_004 line 605:
`a.isKind(SyntaxKind.ArrowFunction) || a.isKind(SyntaxKind.FunctionDeclaration)`. -/
def isFunctionLike (n : AncNode) : Bool :=
  n.kind == NodeKind.arrowFunction || n.kind == NodeKind.functionDeclaration

/-- JavaScript template interpolation of a possibly-undefined name. -/
def jsTemplate : Option String → String
  | some s => s
  | none => "undefined"

/-- The result of getRootFunction: the resolved name and the root node. -/
structure RootResolution where
  name : String
  rootFunction : AncNode
  deriving DecidableEq, Repr

/-- The last function-like entry of an ancestor chain together with the
ancestors above it.  This realises the source expression
`ancestors.filter(isFunctionLike).reverse()[0]` (see
`lastFunctionLikeWithAbove_fst` below) while also exposing the suffix of
the chain that `getFirstAncestorByKind` searches. -/
def lastFunctionLikeWithAbove : List AncNode → Option (AncNode × List AncNode)
  | [] => none
  | n :: rest =>
    match lastFunctionLikeWithAbove rest with
    | some r => some r
    | none => if isFunctionLike n then some (n, rest) else none

theorem lastFunctionLikeWithAbove_fst (l : List AncNode) :
    (lastFunctionLikeWithAbove l).map Prod.fst = ((l.filter isFunctionLike).reverse).head? := by
  induction l with
  | nil => rfl
  | cons n rest ih =>
    unfold lastFunctionLikeWithAbove
    by_cases hfl : isFunctionLike n
    · rw [List.filter_cons_of_pos hfl]
      cases hr : lastFunctionLikeWithAbove rest with
      | none =>
        rw [hr] at ih
        have hnil : (rest.filter isFunctionLike).reverse.head? = none := ih.symm
        have : (rest.filter isFunctionLike).reverse = [] :=
          List.head?_eq_none_iff.mp hnil
        simp [hr, hfl, this]
      | some r =>
        rw [hr] at ih
        have hne : (rest.filter isFunctionLike).reverse.head? = some r.1 := ih.symm
        simp only [List.reverse_cons, hr, Option.map_some]
        rw [List.head?_append_of_ne_nil]
        · exact ih
        · intro hc
          rw [hc] at hne
          exact Option.noConfusion hne
    · rw [List.filter_cons_of_neg hfl]
      cases hr : lastFunctionLikeWithAbove rest with
      | none => simp [hr, hfl, hr ▸ ih]
      | some r => simp [hr, hr ▸ ih]

theorem lastFunctionLikeWithAbove_eq_none_iff (l : List AncNode) :
    lastFunctionLikeWithAbove l = none ↔ l.filter isFunctionLike = [] := by
  have h := lastFunctionLikeWithAbove_fst l
  constructor
  · intro hn
    rw [hn] at h
    have : (l.filter isFunctionLike).reverse = [] := List.head?_eq_none_iff.mp h.symm
    simpa using this
  · intro hf
    rw [hf] at h
    cases hc : lastFunctionLikeWithAbove l with
    | none => rfl
    | some r =>
      rw [hc] at h
      exact Option.noConfusion h

/-- `getRootFunction` of part_004 lines 602-615: pick
`ancestors.filter(function-like).reverse()[0]`; if it is a function
declaration, use its own name; otherwise (an arrow function) use the name
of its first enclosing variable declaration; with neither, throw.  When the
chain holds no function-like node at all, `reverse()[0]` is `undefined` and
the subsequent `isKind` call throws a TypeError; both throws are modelled
as `Except.error`. -/
def getRootFunction (ancestors : List AncNode) : Except String RootResolution :=
  match lastFunctionLikeWithAbove ancestors with
  | none => Except.error "TypeError: Cannot read properties of undefined"
  | some (root, above) =>
    if root.kind == NodeKind.functionDeclaration then
      Except.ok ⟨jsTemplate root.name, root⟩
    else
      match above.find? (fun a => a.kind == NodeKind.variableDeclaration) with
      | some vd => Except.ok ⟨jsTemplate vd.name, root⟩
      | none => Except.error "Could not determine style function name."

/-- Claim C1 counterexample: for an element nested in an anonymous arrow
function (assigned to the variable Inner) that is itself nested in the
function declaration Outer, the code resolves the Root to Outer — the
outermost function-like ancestor — although the nearest enclosing
function-like declaration is the arrow function, whose claimed name would
be Inner. -/
theorem getRootFunction_not_nearest :
    getRootFunction
        [⟨NodeKind.jsxElement, none⟩,
         ⟨NodeKind.arrowFunction, none⟩,
         ⟨NodeKind.variableDeclaration, some "Inner"⟩,
         ⟨NodeKind.functionDeclaration, some "Outer"⟩]
      = Except.ok ⟨"Outer", ⟨NodeKind.functionDeclaration, some "Outer"⟩⟩
    ∧ ([⟨NodeKind.jsxElement, none⟩,
        ⟨NodeKind.arrowFunction, none⟩,
        ⟨NodeKind.variableDeclaration, some "Inner"⟩,
        ⟨NodeKind.functionDeclaration, some "Outer"⟩].filter isFunctionLike).head?
      = some ⟨NodeKind.arrowFunction, none⟩
    ∧ (⟨NodeKind.arrowFunction, none⟩ : AncNode)
      ≠ ⟨NodeKind.functionDeclaration, some "Outer"⟩ := by
  refine ⟨rfl, rfl, by decide⟩

/-- Claim C1 as amended: the Root resolved for an element is the OUTERMOST
enclosing function-like declaration (the last function-like ancestor in
the nearest-first ancestor chain); its resolved name is the function
declaration's own declared name or, for an (anonymous) arrow function, the
name of the nearest variable declaration enclosing that arrow function —
the variable it is assigned to when it is directly assigned. -/
theorem getRootFunction_outermost (pre post : List AncNode) (root : AncNode)
    (hroot : isFunctionLike root = true)
    (hpost : post.filter isFunctionLike = []) :
    getRootFunction (pre ++ root :: post) =
      (if root.kind == NodeKind.functionDeclaration then
        Except.ok ⟨jsTemplate root.name, root⟩
      else
        match post.find? (fun a => a.kind == NodeKind.variableDeclaration) with
        | some vd => Except.ok ⟨jsTemplate vd.name, root⟩
        | none => Except.error "Could not determine style function name.") := by
  have hlast : lastFunctionLikeWithAbove (pre ++ root :: post) = some (root, post) := by
    induction pre with
    | nil =>
      have hn : lastFunctionLikeWithAbove post = none :=
        (lastFunctionLikeWithAbove_eq_none_iff post).mpr hpost
      simp only [List.nil_append]
      unfold lastFunctionLikeWithAbove
      rw [hn, hroot]
      rfl
    | cons p pre ih =>
      simp only [List.cons_append]
      unfold lastFunctionLikeWithAbove
      rw [ih]
  unfold getRootFunction
  rw [hlast]

/-- Witness for C1 amended at a concrete chain. -/
theorem getRootFunction_outermost_witness :
    getRootFunction
        [⟨NodeKind.jsxElement, none⟩,
         ⟨NodeKind.arrowFunction, none⟩,
         ⟨NodeKind.variableDeclaration, some "Card"⟩]
      = Except.ok ⟨"Card", ⟨NodeKind.arrowFunction, none⟩⟩ := by
  exact getRootFunction_outermost
    [⟨NodeKind.jsxElement, none⟩] [⟨NodeKind.variableDeclaration, some "Card"⟩]
    ⟨NodeKind.arrowFunction, none⟩ (by decide) (by decide)

/-! ## Type resolver (part_004 lines 41-46, 230-234, 329-380)

A ts-morph `Type` is embedded as `Ty`.  A basic type carries its text; the
undefined type is its own constructor; a union carries its members in
`getUnionTypes()` order; an alias reference whose text mentions
`import(` carries the data ts-morph would supply: its raw text, the escaped
name of its symbol (`none` when no symbol resolves), its alias type
arguments, and the module specifier `resolveImportSpecifier` would return
(`none` when resolution fails) — path resolution itself lives outside the
repository and is therefore data here. -/

inductive Ty where
  | basic (text : String)
  | undef
  | union (members : List Ty)
  | aliasRef (text : String) (symbolName : Option String) (aliasArgs : List Ty)
      (resolvedModule : Option String)

/-- `type.isUndefined()`. -/
def Ty.isUndefined : Ty → Bool
  | Ty.undef => true
  | _ => false

/-- An `ImportInfo` of part_004 lines 218-228: either a named import or a
default/namespace clause, with its module specifier. -/
inductive ImportInfo where
  | named (name : String) (fromModule : String)
  | defaultClause (clause : String) (fromModule : String)
  deriving DecidableEq, Repr

/-- `TypeInfo` of part_004 lines 230-234. -/
structure TypeInfo where
  imports : List ImportInfo
  isOptional : Bool
  types : List String
  deriving DecidableEq, Repr

/-- Whether `pat` begins `s`. -/
def beginsWith : List Char → List Char → Bool
  | [], _ => true
  | _ :: _, [] => false
  | p :: ps, c :: cs => p == c && beginsWith ps cs

/-- Whether `pat` occurs anywhere in `s` (JavaScript `includes`). -/
def hasSubstr (pat : List Char) : List Char → Bool
  | [] => beginsWith pat []
  | c :: cs => beginsWith pat (c :: cs) || hasSubstr pat cs

/-- `t.includes("import(")` of part_004 line 354. -/
def containsImportParen (s : String) : Bool :=
  hasSubstr "import(".toList s.toList

/-- The reduce callback of part_004 lines 341-350: imports are appended in
member order, types are PREPENDED (new member first), optionality is the
logical OR. -/
def unionReduce (p c : TypeInfo) : TypeInfo :=
  ⟨p.imports ++ c.imports, p.isOptional || c.isOptional, c.types ++ p.types⟩

/-- `getTypeInfo` of part_004 lines 329-380.  For a union, each member is
resolved independently and the results are combined with `unionReduce`
starting from the spread of the initial record (whose `types` field was
reset to `[]`).  For a non-union type whose text mentions `import(`, the
alias type arguments are resolved recursively, their imports collected,
and the type text replaced by `Name<Args>` when a symbol name is
available, adding an import when a module specifier resolves; the
JavaScript template interpolation of an undefined symbol name into
`Name<Args>` (yielding the text "undefined<...>") is reproduced. -/
def getTypeInfo (t : Ty) : TypeInfo :=
  match t with
  | Ty.union ms =>
    (ms.attach.map (fun m => getTypeInfo m.1)).foldl unionReduce
      ⟨[], Ty.isUndefined (Ty.union ms), []⟩
  | Ty.basic text => ⟨[], false, [text]⟩
  | Ty.undef => ⟨[], true, ["undefined"]⟩
  | Ty.aliasRef text symbolName aliasArgs resolvedModule =>
    if containsImportParen text then
      let argInfos := aliasArgs.attach.map (fun a => getTypeInfo a.1)
      let importsFromArgs := argInfos.foldl (fun acc i => acc ++ i.imports) []
      let typeArgs := argInfos.map (fun i => String.intercalate " | " i.types)
      let name : String :=
        if typeArgs.length > 0 then
          jsTemplate symbolName ++ "<" ++ String.intercalate ", " typeArgs ++ ">"
        else
          match symbolName with
          | some n => n
          | none => ""
      let nameTruthy : Bool :=
        if typeArgs.length > 0 then true
        else
          match symbolName with
          | some n => !(n == "")
          | none => false
      if nameTruthy then
        ⟨importsFromArgs ++ (match resolvedModule with
          | some m => [ImportInfo.named (match symbolName with
              | some n => n
              | none => "") m]
          | none => []),
         false, [name]⟩
      else
        ⟨importsFromArgs, false, [text]⟩
    else
      ⟨[], false, [text]⟩
decreasing_by
  all_goals simp_wf
  · have := List.sizeOf_lt_of_mem m.2
    omega
  · have := List.sizeOf_lt_of_mem a.2
    omega

/-- `Array.from(new Set(arr))` of part_004 lines 843-845: deduplication
keeping first occurrences in order. -/
def distinct (l : List String) : List String := l.eraseDups

/-- `getTypeString` of part_004 lines 41-46. -/
def getTypeString (typeInfo : Option TypeInfo) : String :=
  match typeInfo with
  | none => "unknown"
  | some ti => String.intercalate " | " (distinct ti.types)

theorem foldl_unionReduce_types (infos : List TypeInfo) (acc : TypeInfo) :
    (infos.foldl unionReduce acc).types =
      ((infos.map TypeInfo.types).reverse).flatten ++ acc.types := by
  induction infos generalizing acc with
  | nil => simp
  | cons i rest ih =>
    simp only [List.foldl_cons, List.map_cons, List.reverse_cons, List.flatten_append, ih,
      unionReduce]
    simp [List.append_assoc]

theorem foldl_unionReduce_imports (infos : List TypeInfo) (acc : TypeInfo) :
    (infos.foldl unionReduce acc).imports =
      acc.imports ++ (infos.map TypeInfo.imports).flatten := by
  induction infos generalizing acc with
  | nil => simp
  | cons i rest ih =>
    simp only [List.foldl_cons, List.map_cons, List.flatten, ih, unionReduce]
    simp [List.append_assoc]

theorem foldl_unionReduce_isOptional (infos : List TypeInfo) (acc : TypeInfo) :
    (infos.foldl unionReduce acc).isOptional =
      (acc.isOptional || infos.any TypeInfo.isOptional) := by
  induction infos generalizing acc with
  | nil => simp
  | cons i rest ih =>
    simp only [List.foldl_cons, List.any_cons, ih, unionReduce]
    simp [Bool.or_assoc]

theorem getTypeInfo_union_unfold (ms : List Ty) :
    getTypeInfo (Ty.union ms) =
      (ms.map getTypeInfo).foldl unionReduce ⟨[], false, []⟩ := by
  rw [getTypeInfo]
  rw [List.attach_map_val]
  rfl

theorem getTypeInfo_basic (text : String) :
    getTypeInfo (Ty.basic text) = ⟨[], false, [text]⟩ := by
  simp [getTypeInfo]

theorem getTypeInfo_undef : getTypeInfo Ty.undef = ⟨[], true, ["undefined"]⟩ := by
  simp [getTypeInfo]

/-- Claim C4: resolving a union concatenates the independently resolved
alternatives of the members new-to-old (latest member first), takes the
logical OR of the members' optionality (an undefined member marks the
result optional), and on the concrete union string | undefined produces an
optional TypeInfo whose rendered type string joins undefined and string
with " | ". -/
theorem getTypeInfo_union_spec (ms : List Ty) :
    (getTypeInfo (Ty.union ms)).types
        = (((ms.map (fun m => (getTypeInfo m).types)).reverse).flatten)
    ∧ (getTypeInfo (Ty.union ms)).isOptional
        = ms.any (fun m => (getTypeInfo m).isOptional)
    ∧ (getTypeInfo (Ty.union ms)).imports
        = ((ms.map (fun m => (getTypeInfo m).imports)).flatten)
    ∧ (Ty.undef ∈ ms → (getTypeInfo (Ty.union ms)).isOptional = true)
    ∧ getTypeInfo (Ty.union [Ty.basic "string", Ty.undef]) = ⟨[], true, ["undefined", "string"]⟩
    ∧ getTypeString (some (getTypeInfo (Ty.union [Ty.basic "string", Ty.undef])))
        = "undefined | string" := by
  have hconc : getTypeInfo (Ty.union [Ty.basic "string", Ty.undef])
      = ⟨[], true, ["undefined", "string"]⟩ := by
    rw [getTypeInfo_union_unfold]
    simp [getTypeInfo_basic, getTypeInfo_undef, unionReduce]
  have hopt : (getTypeInfo (Ty.union ms)).isOptional
      = ms.any (fun m => (getTypeInfo m).isOptional) := by
    rw [getTypeInfo_union_unfold, foldl_unionReduce_isOptional, Bool.false_or]
    induction ms with
    | nil => rfl
    | cons t ts ih => simp only [List.map_cons, List.any_cons, ih]
  refine ⟨?_, hopt, ?_, ?_, hconc, ?_⟩
  · rw [getTypeInfo_union_unfold, foldl_unionReduce_types]
    simp [List.map_map, Function.comp_def]
  · rw [getTypeInfo_union_unfold, foldl_unionReduce_imports]
    simp [List.map_map, Function.comp_def]
  · intro hmem
    rw [hopt]
    exact List.any_eq_true.mpr ⟨Ty.undef, hmem, by rw [getTypeInfo_undef]⟩
  · rw [hconc]
    decide

/-- Witness for C4 at a concrete union: the undefined-member hypothesis is
discharged on string | undefined. -/
theorem getTypeInfo_union_spec_witness :
    (getTypeInfo (Ty.union [Ty.basic "string", Ty.undef])).isOptional = true :=
  (getTypeInfo_union_spec [Ty.basic "string", Ty.undef]).2.2.2.1
    (List.mem_cons_of_mem _ (List.mem_cons_self _ _))

/-! ## Style group builder: parameters (part_004 lines 143-198, 212-216) -/

/-- A `VariableDefinition` of part_004 lines 212-216. -/
structure VariableDefinition where
  sourceName : String
  destinationName : Option String := none
  type : Option TypeInfo
  deriving DecidableEq, Repr

/-- `addParameter` of part_004 lines 189-193: the parameter is pushed only
when every already-present parameter has a different sourceName. -/
def addParameter (parameters : List VariableDefinition) (parameter : VariableDefinition) :
    List VariableDefinition :=
  if parameters.all (fun p => p.sourceName != parameter.sourceName) then
    parameters ++ [parameter]
  else
    parameters

theorem addParameter_nodup_inv (ps : List VariableDefinition) (p : VariableDefinition)
    (h : (ps.map VariableDefinition.sourceName).Nodup) :
    ((addParameter ps p).map VariableDefinition.sourceName).Nodup := by
  unfold addParameter
  by_cases hc : ps.all (fun q => q.sourceName != p.sourceName) = true
  · rw [if_pos hc, List.map_append]
    refine List.Nodup.append h (List.nodup_singleton _) ?_
    intro a ha hb
    rw [List.map_singleton, List.mem_singleton] at hb
    rcases List.mem_map.mp ha with ⟨q, hq, hqe⟩
    have hne := List.all_eq_true.mp hc q hq
    rw [hqe, hb] at hne
    simp at hne
  · rw [if_neg hc]
    exact h

theorem foldl_addParameter_nodup (adds : List VariableDefinition)
    (ps : List VariableDefinition) (h : (ps.map VariableDefinition.sourceName).Nodup) :
    (((adds.foldl addParameter ps)).map VariableDefinition.sourceName).Nodup := by
  induction adds generalizing ps with
  | nil => exact h
  | cons a rest ih => exact ih _ (addParameter_nodup_inv ps a h)

/-- Claim C6: adding a parameter whose sourceName is already present
leaves the parameter list unchanged, and consequently any sequence of
addParameter calls starting from the empty list (the state in which
getFunction creates a StyleFunctionBuilder) keeps the sourceNames
pairwise distinct at every point of a run. -/
theorem addParameter_dedup :
    (∀ (ps : List VariableDefinition) (p : VariableDefinition),
        p.sourceName ∈ ps.map VariableDefinition.sourceName → addParameter ps p = ps)
    ∧ ∀ (adds : List VariableDefinition),
        ((adds.foldl addParameter []).map VariableDefinition.sourceName).Nodup := by
  constructor
  · intro ps p hmem
    unfold addParameter
    rw [if_neg]
    intro hall
    rcases List.mem_map.mp hmem with ⟨q, hq, hqe⟩
    have := List.all_eq_true.mp hall q hq
    rw [hqe] at this
    simp at this
  · intro adds
    exact foldl_addParameter_nodup adds [] List.nodup_nil

/-- Witness for C6: a duplicate sourceName is rejected at a concrete
parameter list. -/
theorem addParameter_dedup_witness :
    addParameter [⟨"size", none, none⟩] ⟨"size", none, some ⟨[], true, ["boolean"]⟩⟩
      = [⟨"size", none, none⟩] :=
  addParameter_dedup.1 _ _ (by decide)

/-! ## Code generator: accessor signatures (part_004 lines 88-126)

`createStyleObject` writes, per StyleFunctionBuilder, the accessor
`get<Name>(<args><default>) {`.  The fragments of that signature are
embedded below exactly as lines 96-104 compute them. -/

/-- `p.destinationName ?? p.sourceName` (part_004 line 100). -/
def paramEmitName (p : VariableDefinition) : String :=
  p.destinationName.getD p.sourceName

/-- `p.type === null || p.type.isOptional` (part_004 line 103). -/
def typeNullOrOptional (p : VariableDefinition) : Bool :=
  match p.type with
  | none => true
  | some t => t.isOptional

/-- The name and parameter list of one StyleFunctionBuilder as consumed by
createStyleObject. -/
structure StyleFunctionSignature where
  name : String
  parameters : List VariableDefinition
  deriving DecidableEq, Repr

/-- The `args` string of part_004 lines 97-102: empty for a parameterless
function, otherwise a destructuring of all (deduplicated) parameter names
annotated with the property-bag interface `<Name>Props`. -/
def accessorArgsClause (fb : StyleFunctionSignature) : String :=
  if fb.parameters.length == 0 then ""
  else
    "\x7b" ++ String.intercalate ", " (distinct (fb.parameters.map paramEmitName))
      ++ "\x7d: " ++ fb.name ++ "Props"

/-- The `addDefault` flag of part_004 line 103. -/
def accessorAddDefault (fb : StyleFunctionSignature) : Bool :=
  decide (fb.parameters.length > 0) && fb.parameters.all typeNullOrOptional

/-- The accessor header written at part_004 line 104. -/
def accessorSignature (fb : StyleFunctionSignature) : String :=
  "get" ++ fb.name ++ "(" ++ accessorArgsClause fb
    ++ (if accessorAddDefault fb then " = \x7b\x7d" else "") ++ ") \x7b"

/-- Claim C8: a StyleFunction with no parameters gets an accessor with the
parameter clause omitted entirely, and one with parameters destructures
all parameter names typed by the property-bag interface, with the default
initializer appended exactly when every parameter is optional (a
parameter whose TypeInfo is null counts as optional, mirroring
`p.type === null || p.type.isOptional`). -/
theorem createStyleObject_signature (fb : StyleFunctionSignature) :
    (fb.parameters = [] → accessorSignature fb = "get" ++ fb.name ++ "() \x7b")
    ∧ (fb.parameters ≠ [] →
        (accessorAddDefault fb = true ↔ ∀ p ∈ fb.parameters, typeNullOrOptional p = true)
        ∧ accessorSignature fb
          = "get" ++ fb.name ++ "("
            ++ ("\x7b" ++ String.intercalate ", " (distinct (fb.parameters.map paramEmitName))
              ++ "\x7d: " ++ fb.name ++ "Props")
            ++ (if fb.parameters.all typeNullOrOptional then " = \x7b\x7d" else "")
            ++ ") \x7b") := by
  constructor
  · intro hempty
    unfold accessorSignature accessorArgsClause accessorAddDefault
    rw [hempty]
    simp
    rw [String.append_assoc]
    rfl
  · intro hne
    have hlen : fb.parameters.length ≠ 0 := fun h => hne (List.length_eq_zero.mp h)
    have hpos : 0 < fb.parameters.length := Nat.pos_of_ne_zero hlen
    have hdef : accessorAddDefault fb = fb.parameters.all typeNullOrOptional := by
      unfold accessorAddDefault
      rw [decide_eq_true hpos, Bool.true_and]
    constructor
    · rw [hdef]
      exact List.all_eq_true
    · unfold accessorSignature accessorArgsClause
      rw [if_neg (by simpa using hlen), hdef]

/-- Witness for C8: a single optional parameter yields the destructured
clause with the default initializer appended. -/
theorem createStyleObject_signature_witness :
    accessorSignature ⟨"Card", [⟨"size", none, some ⟨[], true, ["boolean"]⟩⟩]⟩
      = "getCard(\x7bsize\x7d: CardProps = \x7b\x7d) \x7b" := by
  have h := (createStyleObject_signature
    ⟨"Card", [⟨"size", none, some ⟨[], true, ["boolean"]⟩⟩]⟩).2 (by decide)
  rw [h.2]
  decide

/-! ## Manipulation passes (part_004 lines 133-141, 203-209, 721, 733-738, 774-794)

A queued Manipulation is identified by a numeric id (its queue position)
paired with its pass tag.  processSource queues the element-loop
manipulations, runs the BeforeStyleGeneration pass (line 721), then queues
one further AfterStyleGeneration manipulation (the component-import
insertion, line 733), and saveResults generates the style object (line
787) and then runs the AfterStyleGeneration pass (line 789).  The run is
modelled as the trace of events this produces. -/

/-- The two passes of part_004 lines 138-141. -/
inductive ManipulationPass where
  | beforeStyleGeneration
  | afterStyleGeneration
  deriving DecidableEq, Repr

/-- `runManipulations` of part_004 lines 204-208: filter the queue by pass
and execute the selected actions in queue order; the executed ids are
returned. -/
def runManipulations (manipulations : List (Nat × ManipulationPass))
    (pass : ManipulationPass) : List Nat :=
  (manipulations.filter (fun m => m.2 == pass)).map Prod.fst

/-- An observable event of a run: one action executing, or the code
generator emitting the accessor module. -/
inductive RunEvent where
  | action (id : Nat)
  | generateStyleObject
  deriving DecidableEq, Repr

/-- The queue as it stands when the AfterStyleGeneration pass runs: the
element-loop queue plus the component-import manipulation pushed at
part_004 line 733 with pass AfterStyleGeneration. -/
def fullQueue (queue : List (Nat × ManipulationPass)) (importManipId : Nat) :
    List (Nat × ManipulationPass) :=
  queue ++ [(importManipId, ManipulationPass.afterStyleGeneration)]

/-- The actions the BeforeStyleGeneration pass executes (line 721). -/
def beforeTrace (queue : List (Nat × ManipulationPass)) : List RunEvent :=
  (runManipulations queue ManipulationPass.beforeStyleGeneration).map RunEvent.action

/-- The actions the AfterStyleGeneration pass executes (line 789). -/
def afterTrace (queue : List (Nat × ManipulationPass)) (importManipId : Nat) : List RunEvent :=
  (runManipulations (fullQueue queue importManipId)
    ManipulationPass.afterStyleGeneration).map RunEvent.action

/-- The full event trace of a run of processSource and saveResults. -/
def fullRunTrace (queue : List (Nat × ManipulationPass)) (importManipId : Nat) :
    List RunEvent :=
  beforeTrace queue ++ [RunEvent.generateStyleObject] ++ afterTrace queue importManipId

theorem pairs_eq_of_nodup_fst {l : List (Nat × ManipulationPass)}
    (h : (l.map Prod.fst).Nodup) {a b : Nat × ManipulationPass}
    (ha : a ∈ l) (hb : b ∈ l) (hfst : a.1 = b.1) : a = b := by
  induction l with
  | nil => cases ha
  | cons x xs ih =>
    rw [List.map_cons, List.nodup_cons] at h
    rcases List.mem_cons.mp ha with ha1 | ha2 <;> rcases List.mem_cons.mp hb with hb1 | hb2
    · rw [ha1, hb1]
    · exfalso
      refine h.1 ?_
      rw [← ha1, hfst]
      exact List.mem_map.mpr ⟨b, hb2, rfl⟩
    · exfalso
      refine h.1 ?_
      rw [← hb1, ← hfst]
      exact List.mem_map.mpr ⟨a, ha2, rfl⟩
    · exact ih h.2 ha2 hb2

theorem mem_runManipulations {queue : List (Nat × ManipulationPass)}
    {pass : ManipulationPass} {i : Nat} :
    i ∈ runManipulations queue pass ↔ (i, pass) ∈ queue := by
  unfold runManipulations
  rw [List.mem_map]
  constructor
  · rintro ⟨m, hm, rfl⟩
    rcases List.mem_filter.mp hm with ⟨hmem, hpass⟩
    have : m.2 = pass := by simpa using hpass
    rw [show m = (m.1, pass) from by rw [← this]] at hmem
    exact hmem
  · intro hmem
    exact ⟨(i, pass), List.mem_filter.mpr ⟨hmem, by simp⟩, rfl⟩

theorem runManipulations_nodup {queue : List (Nat × ManipulationPass)}
    (h : (queue.map Prod.fst).Nodup) (pass : ManipulationPass) :
    (runManipulations queue pass).Nodup := by
  unfold runManipulations
  exact h.sublist ((List.filter_sublist queue).map Prod.fst)

theorem fullQueue_nodup {queue : List (Nat × ManipulationPass)} {impId : Nat}
    (hnodup : (queue.map Prod.fst).Nodup) (himp : impId ∉ queue.map Prod.fst) :
    ((fullQueue queue impId).map Prod.fst).Nodup := by
  unfold fullQueue
  rw [List.map_append]
  refine List.Nodup.append hnodup (List.nodup_singleton _) ?_
  intro a ha hb
  rw [List.map_singleton, List.mem_singleton] at hb
  rw [hb] at ha
  exact himp ha

theorem count_action_map (ids : List Nat) (i : Nat) :
    (ids.map RunEvent.action).count (RunEvent.action i) = ids.count i := by
  induction ids with
  | nil => rfl
  | cons x xs ih =>
    rw [List.map_cons, List.count_cons, List.count_cons, ih]
    by_cases hx : x = i
    · simp [hx]
    · simp [hx, RunEvent.action.injEq]

/-- Claim C3: in a run whose queued manipulations carry pairwise-distinct
ids (each push creates a new Manipulation) and whose late-pushed
component-import manipulation is likewise fresh, every queued manipulation
executes exactly once; every BeforeStyleGeneration action appears in the
segment before the style-object generation event and not after it, and
every AfterStyleGeneration action appears in the segment after it and not
before. -/
theorem manipulations_run_once (queue : List (Nat × ManipulationPass)) (impId : Nat)
    (hnodup : (queue.map Prod.fst).Nodup) (himp : impId ∉ queue.map Prod.fst) :
    ∀ m ∈ fullQueue queue impId,
      (fullRunTrace queue impId).count (RunEvent.action m.1) = 1
      ∧ (m.2 = ManipulationPass.beforeStyleGeneration →
          RunEvent.action m.1 ∈ beforeTrace queue
            ∧ RunEvent.action m.1 ∉ afterTrace queue impId)
      ∧ (m.2 = ManipulationPass.afterStyleGeneration →
          RunEvent.action m.1 ∈ afterTrace queue impId
            ∧ RunEvent.action m.1 ∉ beforeTrace queue) := by
  intro m hm
  have hfullnodup := fullQueue_nodup hnodup himp
  have hgen : ([RunEvent.generateStyleObject].count (RunEvent.action m.1)) = 0 := by
    simp
  have hmem_before : RunEvent.action m.1 ∈ beforeTrace queue ↔
      (m.1, ManipulationPass.beforeStyleGeneration) ∈ queue := by
    unfold beforeTrace
    rw [List.mem_map]
    constructor
    · rintro ⟨i, hi, he⟩
      have : i = m.1 := by simpa [RunEvent.action.injEq] using he
      rw [← this]
      exact mem_runManipulations.mp hi
    · intro h
      exact ⟨m.1, mem_runManipulations.mpr h, rfl⟩
  have hmem_after : RunEvent.action m.1 ∈ afterTrace queue impId ↔
      (m.1, ManipulationPass.afterStyleGeneration) ∈ fullQueue queue impId := by
    unfold afterTrace
    rw [List.mem_map]
    constructor
    · rintro ⟨i, hi, he⟩
      have : i = m.1 := by simpa [RunEvent.action.injEq] using he
      rw [← this]
      exact mem_runManipulations.mp hi
    · intro h
      exact ⟨m.1, mem_runManipulations.mpr h, rfl⟩
  have hcount : (fullRunTrace queue impId).count (RunEvent.action m.1)
      = (runManipulations queue ManipulationPass.beforeStyleGeneration).count m.1
        + (runManipulations (fullQueue queue impId)
            ManipulationPass.afterStyleGeneration).count m.1 := by
    unfold fullRunTrace beforeTrace afterTrace
    rw [List.count_append, List.count_append, count_action_map, count_action_map, hgen]
    omega
  cases hp : m.2 with
  | beforeStyleGeneration =>
    have hmq : m ∈ queue := by
      rcases List.mem_append.mp hm with h1 | h2
      · exact h1
      · exfalso
        rw [List.mem_singleton] at h2
        rw [h2] at hp
        exact ManipulationPass.noConfusion hp
    have hbmem : (m.1, ManipulationPass.beforeStyleGeneration) ∈ queue := by
      rw [show (m.1, ManipulationPass.beforeStyleGeneration) = m from by
        rw [show m = (m.1, m.2) from rfl, hp]]
      exact hmq
    have hanot : (m.1, ManipulationPass.afterStyleGeneration) ∉ fullQueue queue impId := by
      intro hc
      rcases List.mem_append.mp hc with h1 | h2
      · have := pairs_eq_of_nodup_fst hnodup h1 hbmem rfl
        exact ManipulationPass.noConfusion (congrArg Prod.snd this)
      · rw [List.mem_singleton] at h2
        have : m.1 = impId := congrArg Prod.fst h2
        exact himp (this ▸ List.mem_map.mpr ⟨m, hmq, rfl⟩)
    refine ⟨?_, fun _ => ⟨hmem_before.mpr hbmem, fun hc => hanot (hmem_after.mp hc)⟩,
      fun hc => absurd (hp ▸ hc : ManipulationPass.beforeStyleGeneration
        = ManipulationPass.afterStyleGeneration) (by simp)⟩
    rw [hcount]
    have h1 : (runManipulations queue ManipulationPass.beforeStyleGeneration).count m.1 = 1 :=
      List.count_eq_one_of_mem (runManipulations_nodup hnodup _)
        (mem_runManipulations.mpr hbmem)
    have h2 : (runManipulations (fullQueue queue impId)
        ManipulationPass.afterStyleGeneration).count m.1 = 0 :=
      List.count_eq_zero.mpr (fun hc => hanot (mem_runManipulations.mp hc))
    omega
  | afterStyleGeneration =>
    have hamem : (m.1, ManipulationPass.afterStyleGeneration) ∈ fullQueue queue impId := by
      rw [show (m.1, ManipulationPass.afterStyleGeneration) = m from by
        rw [show m = (m.1, m.2) from rfl, hp]]
      exact hm
    have hbnot : (m.1, ManipulationPass.beforeStyleGeneration) ∉ queue := by
      intro hc
      rcases List.mem_append.mp hm with h1 | h2
      · have := pairs_eq_of_nodup_fst hnodup h1 hc rfl
        have hsnd := congrArg Prod.snd this
        rw [hp] at hsnd
        exact ManipulationPass.noConfusion hsnd
      · rw [List.mem_singleton] at h2
        have : m.1 = impId := congrArg Prod.fst h2
        exact himp (this ▸ List.mem_map.mpr ⟨_, hc, rfl⟩)
    refine ⟨?_, fun hc => absurd (hp ▸ hc : ManipulationPass.afterStyleGeneration
        = ManipulationPass.beforeStyleGeneration) (by simp),
      fun _ => ⟨hmem_after.mpr hamem, fun hc => hbnot (hmem_before.mp hc)⟩⟩
    rw [hcount]
    have h1 : (runManipulations queue ManipulationPass.beforeStyleGeneration).count m.1 = 0 :=
      List.count_eq_zero.mpr (fun hc => hbnot (mem_runManipulations.mp hc))
    have h2 : (runManipulations (fullQueue queue impId)
        ManipulationPass.afterStyleGeneration).count m.1 = 1 :=
      List.count_eq_one_of_mem (runManipulations_nodup hfullnodup _)
        (mem_runManipulations.mpr hamem)
    omega

/-- Witness for C3 at a concrete queue of one Before and one After
manipulation plus the import manipulation. -/
theorem manipulations_run_once_witness :
    (fullRunTrace [(0, ManipulationPass.beforeStyleGeneration),
      (1, ManipulationPass.afterStyleGeneration)] 2).count (RunEvent.action 0) = 1
    ∧ RunEvent.action 0 ∈ beforeTrace [(0, ManipulationPass.beforeStyleGeneration),
        (1, ManipulationPass.afterStyleGeneration)] := by
  have h := manipulations_run_once
    [(0, ManipulationPass.beforeStyleGeneration), (1, ManipulationPass.afterStyleGeneration)] 2
    (by decide) (by decide) (0, ManipulationPass.beforeStyleGeneration) (by decide)
  exact ⟨h.1, (h.2.1 rfl).1⟩

/-! ## Unused-import pruner (part_004 lines 796-841)

`findReferences()` results are embedded as `ReferenceEntry` values per
binding: `sameFile` states whether the reference lies in the file being
pruned, `parentIsImportSpecifier` whether `node.getParentIfKind(ImportSpecifier)`
is truthy, and `isImportStatementOccurrence` whether the entry is the
occurrence of the binding inside its own import statement (the definition
entry the language service always includes).  In a real AST the two last
flags coincide for a named-import binding, while for a default or
namespace binding the import-statement occurrence sits under the import
clause, not under an ImportSpecifier; the well-formedness predicates below
record exactly that. -/

/-- One reference entry of a binding. -/
structure ReferenceEntry where
  sameFile : Bool
  parentIsImportSpecifier : Bool
  isImportStatementOccurrence : Bool
  deriving DecidableEq, Repr

/-- `isReferenceUsed` of part_004 lines 796-802: a reference counts unless
it lies in another file or its parent is an ImportSpecifier. -/
def isReferenceUsed (ref : ReferenceEntry) : Bool :=
  if !ref.sameFile || ref.parentIsImportSpecifier then false else true

/-- `getUsedReferences` of part_004 lines 804-806 (the flatMap over
ReferencedSymbol entries is pre-applied in the binding's list). -/
def getUsedReferences (references : List ReferenceEntry) : List ReferenceEntry :=
  references.filter isReferenceUsed

/-- One import binding together with its findReferences() result. -/
structure BindingModel where
  refs : List ReferenceEntry
  deriving DecidableEq, Repr

/-- One import declaration: named specifiers, optional default import,
optional namespace import. -/
structure ImportDeclModel where
  named : List BindingModel
  defaultImport : Option BindingModel
  namespaceImport : Option BindingModel
  deriving DecidableEq, Repr

/-- What removeUnusedImports (part_004 lines 808-841) decides for
one import declaration: the queue positions of the named specifiers pushed to
`unusedImports`, and whether the whole declaration is pushed (used == 0). -/
structure PruneDecision where
  removedNamedIdx : List Nat
  removeDeclaration : Bool
  deriving DecidableEq, Repr

/-- The per-declaration body of removeUnusedImports: each named specifier
with zero used references is marked removed, the used counts of the others
accumulate, a default or namespace import with at least one used reference
adds one, and the declaration is removed iff the total is zero. -/
def pruneImportDecl (d : ImportDeclModel) : PruneDecision :=
  let counts := d.named.map (fun b => (getUsedReferences b.refs).length)
  let removedNamed := (counts.enum.filter (fun x => x.2 == 0)).map Prod.fst
  let usedNamed := (counts.filter (fun c => c != 0)).foldl (· + ·) 0
  let usedDefault :=
    match d.defaultImport with
    | some b => if (getUsedReferences b.refs).length > 0 then 1 else 0
    | none => 0
  let usedNamespace :=
    match d.namespaceImport with
    | some b => if (getUsedReferences b.refs).length > 0 then 1 else 0
    | none => 0
  ⟨removedNamed, usedNamed + usedDefault + usedNamespace == 0⟩

/-- The live-reference count the claim describes: references strictly
within the file, excluding the occurrence inside the import statement
itself.  This definition follows the claim text, for comparison with the
code. -/
def claimedLiveRefCount (b : BindingModel) : Nat :=
  (b.refs.filter (fun r => r.sameFile && !r.isImportStatementOccurrence)).length

/-- The removal rule the claim describes: the whole statement goes exactly
when zero live references remain across all its bindings. -/
def claimedRemoveDeclaration (d : ImportDeclModel) : Bool :=
  d.named.all (fun b => claimedLiveRefCount b == 0)
    && (match d.defaultImport with
        | some b => claimedLiveRefCount b == 0
        | none => true)
    && (match d.namespaceImport with
        | some b => claimedLiveRefCount b == 0
        | none => true)

/-- Real-AST shape of a named-import binding: an occurrence lies inside
the import statement exactly when its parent is the ImportSpecifier. -/
def namedBindingWF (b : BindingModel) : Prop :=
  ∀ r ∈ b.refs, r.parentIsImportSpecifier = r.isImportStatementOccurrence

/-- Real-AST shape of a default/namespace binding: no occurrence has an
ImportSpecifier parent, and the definition occurrence inside the import
clause is present in the findReferences result. -/
def clauseBindingWF (b : BindingModel) : Prop :=
  (∀ r ∈ b.refs, r.parentIsImportSpecifier = false)
    ∧ ∃ r ∈ b.refs, r.isImportStatementOccurrence = true ∧ r.sameFile = true

/-- Claim C7 counterexample: an import declaration holding only a
default import whose sole reference is its own occurrence in the import clause
(a well-formed, fully unreferenced default import).  The claim says the
statement is removed (zero live references); the code counts that
occurrence — its parent is the import clause, not an ImportSpecifier — so
`used` ends at 1 and the statement is retained. -/
theorem removeUnusedImports_keeps_unused_default :
    pruneImportDecl ⟨[], some ⟨[⟨true, false, true⟩]⟩, none⟩
        = ⟨[], false⟩
    ∧ claimedRemoveDeclaration ⟨[], some ⟨[⟨true, false, true⟩]⟩, none⟩ = true
    ∧ clauseBindingWF ⟨[⟨true, false, true⟩]⟩ := by
  refine ⟨rfl, rfl, ?_⟩
  exact ⟨by decide, ⟨⟨true, false, true⟩, by decide, rfl, rfl⟩⟩

theorem getUsedReferences_length_eq_claimed {b : BindingModel} (h : namedBindingWF b) :
    (getUsedReferences b.refs).length = claimedLiveRefCount b := by
  unfold getUsedReferences claimedLiveRefCount
  congr 1
  apply List.filter_congr
  intro r hr
  have := h r hr
  unfold isReferenceUsed
  cases hs : r.sameFile <;> cases hi : r.isImportStatementOccurrence <;>
    simp_all

/-- Claim C7 as amended: within the rewritten file, the pruner counts live
references excluding only occurrences whose parent is a named-import
specifier.  For named bindings this matches the claim, so: a named
specifier is marked removed exactly when its claimed live-reference count
is zero, and a declaration carrying only named specifiers is removed
exactly when all their claimed counts are zero.  But a well-formed default
(or namespace) import contributes its own import-clause occurrence as a
live reference, so a declaration carrying one is never removed. -/
theorem removeUnusedImports_spec (d : ImportDeclModel)
    (hnamed : ∀ b ∈ d.named, namedBindingWF b) :
    ((pruneImportDecl d).removedNamedIdx
        = ((d.named.map claimedLiveRefCount).enum.filter (fun x => x.2 == 0)).map Prod.fst)
    ∧ (d.defaultImport = none → d.namespaceImport = none →
        ((pruneImportDecl d).removeDeclaration = true
          ↔ ∀ b ∈ d.named, claimedLiveRefCount b = 0))
    ∧ (∀ b, d.defaultImport = some b → clauseBindingWF b →
        (pruneImportDecl d).removeDeclaration = false) := by
  have hcounts : d.named.map (fun b => (getUsedReferences b.refs).length)
      = d.named.map claimedLiveRefCount := by
    apply List.map_congr_left
    intro b hb
    exact getUsedReferences_length_eq_claimed (hnamed b hb)
  refine ⟨?_, ?_, ?_⟩
  · unfold pruneImportDecl
    rw [hcounts]
  · intro hdef hns
    unfold pruneImportDecl
    rw [hcounts, hdef, hns]
    simp only [Nat.add_zero]
    constructor
    · intro h b hb
      have hz : ((d.named.map claimedLiveRefCount).filter (fun c => c != 0)).foldl (· + ·) 0
          = 0 := by simpa using h
      by_contra hne
      have hmem : claimedLiveRefCount b ∈
          (d.named.map claimedLiveRefCount).filter (fun c => c != 0) :=
        List.mem_filter.mpr ⟨List.mem_map.mpr ⟨b, hb, rfl⟩, by simpa using hne⟩
      have hle := List.single_le_sum (l := (d.named.map claimedLiveRefCount).filter
        (fun c => c != 0)) (by intro x hx; exact Nat.zero_le x) _ hmem
      rw [← List.sum_eq_foldl] at hz
      omega
    · intro h
      have : (d.named.map claimedLiveRefCount).filter (fun c => c != 0) = [] := by
        rw [List.filter_eq_nil_iff]
        intro c hc
        rcases List.mem_map.mp hc with ⟨b, hb, rfl⟩
        simpa using h b hb
      rw [this]
      rfl
  · intro b hdef hwf
    unfold pruneImportDecl
    rw [hdef]
    rcases hwf.2 with ⟨r, hr, hocc, hsame⟩
    have hused : isReferenceUsed r = true := by
      unfold isReferenceUsed
      rw [hsame, hwf.1 r hr]
      rfl
    have hmem : r ∈ getUsedReferences b.refs :=
      List.mem_filter.mpr ⟨hr, hused⟩
    have hpos : 0 < (getUsedReferences b.refs).length := List.length_pos.mpr
      (fun hnil => by rw [hnil] at hmem; cases hmem)
    simp only [if_pos hpos]
    have : ∀ a c : Nat, (a + 1 + c == 0) = false := by
      intro a c
      rw [beq_eq_false_iff_ne]
      omega
    simp [this]

instance : DecidablePred namedBindingWF := fun b => by
  unfold namedBindingWF
  infer_instance

/-- Witness for C7 amended: a declaration with one referenced and one
unreferenced named specifier keeps the statement and drops exactly the
unreferenced specifier (queue position 1), and the named-only removal
criterion evaluates on it. -/
theorem removeUnusedImports_spec_witness :
    (pruneImportDecl ⟨[⟨[⟨true, true, true⟩, ⟨true, false, false⟩]⟩,
        ⟨[⟨true, true, true⟩]⟩], none, none⟩).removedNamedIdx = [1]
    ∧ ((pruneImportDecl ⟨[⟨[⟨true, true, true⟩, ⟨true, false, false⟩]⟩,
        ⟨[⟨true, true, true⟩]⟩], none, none⟩).removeDeclaration = true
        ↔ ∀ b ∈ ([⟨[⟨true, true, true⟩, ⟨true, false, false⟩]⟩,
            ⟨[⟨true, true, true⟩]⟩] : List BindingModel), claimedLiveRefCount b = 0) := by
  have h := removeUnusedImports_spec ⟨[⟨[⟨true, true, true⟩, ⟨true, false, false⟩]⟩,
    ⟨[⟨true, true, true⟩]⟩], none, none⟩ (by decide)
  refine ⟨?_, h.2.1 rfl rfl⟩
  rw [h.1]
  decide

/-! ## The element loop of processSource (part_004 lines 679-719) and the
full per-file pipeline (lines 721-794)

The analyzers read symbol tables that live inside ts-morph, so the effect
an attribute's analysis has on the builder is carried as data on the
attribute: whether it has an initializer, which module-scope variable
statements its analysis queues for removal (analyzeVariableDeclarations,
lines 531-536), and which hoisted names it pushes to component.imports
(lines 517-522).  Everything processSource itself does with that data —
root resolution, the styleAttributes loop, the queueing of capture,
attribute-removal and spread-insertion manipulations, the error
propagation of the forEach, the component-import insertion and the final
pruning — is translated from the source. -/

/-- One JSX attribute as the analyzers see it. -/
structure AttrModel where
  hasInitializer : Bool
  hoistRemovals : List Nat
  exportedHoistImports : List String
  deriving DecidableEq, Repr

/-- One markup element: its ancestor chain, its named attributes, and the
number of spread attributes it carries. -/
structure ElemModel where
  ancestors : List AncNode
  attrs : List (String × AttrModel)
  spreadAttrs : Nat := 0
  deriving DecidableEq, Repr

/-- `jsxElement.getAttribute(name)` restricted to plain JSX attributes. -/
def getAttribute (e : ElemModel) (name : String) : Option AttrModel :=
  (e.attrs.find? (fun a => a.1 == name)).map Prod.snd

/-- The presentation-attribute allow-list of part_004 line 129. -/
def styleAttributes : List String := ["className", "style", "classNames"]

/-- The deferred mutations processSource queues, as data. -/
inductive ManipAction where
  | captureProperty (elem : Nat) (attr : String)
  | removeAttribute (elem : Nat) (attr : String)
  | insertSpread (elem : Nat)
  | removeStatement (sid : Nat)
  deriving DecidableEq, Repr

/-- A queued Manipulation (part_004 lines 133-136). -/
structure ManipModel where
  action : ManipAction
  pass : ManipulationPass
  deriving DecidableEq, Repr

/-- The element-loop state: queued manipulations, names pushed to
component.imports, and the addStyleProp flag of line 684. -/
structure ElemAcc where
  manips : List ManipModel
  compImports : List String
  addStyleProp : Bool
  deriving DecidableEq, Repr

/-- One iteration of the styleAttributes.forEach of lines 685-706: when
the element carries that attribute, its analysis queues the
statement-removal manipulations and the hoist imports, a capture
manipulation (pass Before) is queued when an initializer exists, and an
attribute-removal manipulation (pass After) is always queued. -/
def processAttrStep (idx : Nat) (e : ElemModel) (acc : ElemAcc) (styleAttribute : String) :
    ElemAcc :=
  match getAttribute e styleAttribute with
  | some attr =>
    let withAnalysis : ElemAcc :=
      ⟨acc.manips ++ attr.hoistRemovals.map (fun sid =>
          ⟨ManipAction.removeStatement sid, ManipulationPass.afterStyleGeneration⟩),
        acc.compImports ++ attr.exportedHoistImports,
        acc.addStyleProp⟩
    let withCapture : ElemAcc :=
      if attr.hasInitializer then
        ⟨withAnalysis.manips
            ++ [⟨ManipAction.captureProperty idx styleAttribute,
                ManipulationPass.beforeStyleGeneration⟩],
          withAnalysis.compImports, true⟩
      else withAnalysis
    ⟨withCapture.manips
        ++ [⟨ManipAction.removeAttribute idx styleAttribute,
            ManipulationPass.afterStyleGeneration⟩],
      withCapture.compImports, withCapture.addStyleProp⟩
  | none => acc

/-- One iteration of the jsxElements.forEach of lines 679-719: resolve the
Root (a throw propagates), run the styleAttributes loop, and queue the
spread insertion when any presentation attribute had an initializer. -/
def processElement (idx : Nat) (e : ElemModel) : Except String ElemAcc :=
  match getRootFunction e.ancestors with
  | Except.error msg => Except.error msg
  | Except.ok _ =>
    let acc := styleAttributes.foldl (processAttrStep idx e) ⟨[], [], false⟩
    Except.ok ⟨acc.manips
        ++ (if acc.addStyleProp then
            [⟨ManipAction.insertSpread idx, ManipulationPass.afterStyleGeneration⟩]
          else []),
      acc.compImports, acc.addStyleProp⟩

/-- The jsxElements.forEach over the whole element list: a thrown error
aborts the loop and propagates out of processSource. -/
def processElements : Nat → List ElemModel → Except String ElemAcc
  | _, [] => Except.ok ⟨[], [], false⟩
  | idx, e :: rest =>
    match processElement idx e with
    | Except.error msg => Except.error msg
    | Except.ok acc =>
      match processElements (idx + 1) rest with
      | Except.error msg => Except.error msg
      | Except.ok acc2 =>
        Except.ok ⟨acc.manips ++ acc2.manips, acc.compImports ++ acc2.compImports, false⟩

theorem processElement_ok_root {idx : Nat} {e : ElemModel} {acc : ElemAcc}
    (h : processElement idx e = Except.ok acc) {msg : String} :
    getRootFunction e.ancestors ≠ Except.error msg := by
  intro hroot
  unfold processElement at h
  rw [hroot] at h
  exact Except.noConfusion h

/-- Claim C2 counterexample: a file with two markup elements, the first
inside an anonymous arrow function never assigned to a variable (a
naming-resolution failure) and the second a perfectly extractable element
inside the function declaration Card.  The failure aborts the whole file:
processElements returns the error and the second element's capture,
attribute-removal and spread manipulations — which processing it alone
would produce — are never queued. -/
theorem processSource_aborts_file_on_naming_error :
    processElements 0
        [⟨[⟨NodeKind.arrowFunction, none⟩], [("className", ⟨true, [], []⟩)], 0⟩,
         ⟨[⟨NodeKind.functionDeclaration, some "Card"⟩], [("className", ⟨true, [], []⟩)], 0⟩]
      = Except.error "Could not determine style function name."
    ∧ processElement 1
        ⟨[⟨NodeKind.functionDeclaration, some "Card"⟩], [("className", ⟨true, [], []⟩)], 0⟩
      = Except.ok ⟨[⟨ManipAction.captureProperty 1 "className",
            ManipulationPass.beforeStyleGeneration⟩,
          ⟨ManipAction.removeAttribute 1 "className", ManipulationPass.afterStyleGeneration⟩,
          ⟨ManipAction.insertSpread 1, ManipulationPass.afterStyleGeneration⟩], [], true⟩ := by
  exact ⟨rfl, rfl⟩

/-- Claim C2 as amended: a naming-resolution failure on any markup element
aborts extraction for the entire file — the error propagates out of the
element loop (and out of processSource), and no element of the file
contributes groups, parameters or rewrites. -/
theorem processSource_naming_error_aborts_file (start : Nat) (l : List ElemModel)
    (h : ∃ e ∈ l, ∃ msg, getRootFunction e.ancestors = Except.error msg) :
    ∃ msg, processElements start l = Except.error msg := by
  induction l generalizing start with
  | nil =>
    rcases h with ⟨e, he, _⟩
    cases he
  | cons e' rest ih =>
    rcases h with ⟨e, he, msg, hmsg⟩
    unfold processElements
    cases hpe : processElement start e' with
    | error m => exact ⟨m, rfl⟩
    | ok acc =>
      rcases List.mem_cons.mp he with rfl | hrest
      · exact absurd hmsg (processElement_ok_root hpe)
      · rcases ih (start + 1) ⟨e, hrest, msg, hmsg⟩ with ⟨m2, hm2⟩
        rw [hm2]
        exact ⟨m2, rfl⟩

/-- Witness for C2 amended at a concrete file. -/
theorem processSource_naming_error_aborts_file_witness :
    ∃ msg, processElements 0
        [⟨[⟨NodeKind.arrowFunction, none⟩], [("className", ⟨true, [], []⟩)], 0⟩]
      = Except.error msg := by
  exact processSource_naming_error_aborts_file 0 _
    ⟨⟨[⟨NodeKind.arrowFunction, none⟩], [("className", ⟨true, [], []⟩)], 0⟩,
      List.mem_singleton.mpr rfl, "Could not determine style function name.", rfl⟩

/-! ## The full per-file pipeline on the component source (part_004 lines
721-794)

The component source is modelled by its import
statements, its markup elements, its module-scope statements and the identifiers its body (outside import
statements) references.  After the element loop, the
BeforeStyleGeneration pass runs (it touches only the style builder), the
style object is generated into the style file, the AfterStyleGeneration
pass applies the queued component mutations and finally appends one import
declaration of the collected component imports plus `styling` (lines
728-738, addImportsToSourceFile groups them into a single declaration with
distinct named imports since they share one module specifier), and
removeUnusedImports prunes the result.  References for the pruner are
derived from the body-identifier list: every binding carries
its import-statement occurrence plus one body reference per occurrence of its
name. -/

/-- One import declaration of the component source. -/
structure ImportStmtModel where
  named : List String
  defaultClause : Option String
  deriving DecidableEq, Repr

/-- The component source file. -/
structure CompSource where
  imports : List ImportStmtModel
  elements : List ElemModel
  moduleStatements : List Nat
  bodyIdents : List String
  deriving DecidableEq, Repr

/-- The occurrence of a named-import binding inside its ImportSpecifier. -/
def namedDeclRef : ReferenceEntry := ⟨true, true, true⟩

/-- The occurrence of a default-import binding inside its import clause. -/
def clauseDeclRef : ReferenceEntry := ⟨true, false, true⟩

/-- A reference from the file body. -/
def bodyRef : ReferenceEntry := ⟨true, false, false⟩

/-- findReferences() of a named-import binding named `n`. -/
def namedBindingOf (body : List String) (n : String) : BindingModel :=
  ⟨namedDeclRef :: List.replicate (body.count n) bodyRef⟩

/-- findReferences() of a default-import binding named `n`. -/
def clauseBindingOf (body : List String) (n : String) : BindingModel :=
  ⟨clauseDeclRef :: List.replicate (body.count n) bodyRef⟩

/-- The reference model of one import declaration. -/
def importDeclModelOf (body : List String) (stmt : ImportStmtModel) : ImportDeclModel :=
  ⟨stmt.named.map (namedBindingOf body), stmt.defaultClause.map (clauseBindingOf body), none⟩

/-- The effect of removeUnusedImports on one import statement: drop it
entirely when the declaration is marked removed, otherwise drop exactly
the specifiers marked removed. -/
def pruneStmt (body : List String) (stmt : ImportStmtModel) : Option ImportStmtModel :=
  let d := pruneImportDecl (importDeclModelOf body stmt)
  if d.removeDeclaration then none
  else some ⟨(stmt.named.enum.filter
      (fun x => !(d.removedNamedIdx.contains x.1))).map Prod.snd,
    stmt.defaultClause⟩

/-- removeUnusedImports over the whole file. -/
def removeUnusedImportsFile (src : CompSource) : CompSource :=
  { src with imports := src.imports.filterMap (pruneStmt src.bodyIdents) }

/-- Replace the element at one index. -/
def modifyAt (f : ElemModel → ElemModel) : Nat → List ElemModel → List ElemModel
  | _, [] => []
  | 0, e :: rest => f e :: rest
  | n + 1, e :: rest => e :: modifyAt f n rest

/-- `attribute.remove()` (line 701). -/
def removeAttr (name : String) (e : ElemModel) : ElemModel :=
  ⟨e.ancestors, e.attrs.filter (fun a => !(a.1 == name)), e.spreadAttrs⟩

/-- `jsxElement.insertAttribute(0, spread)` (lines 711-714). -/
def insertSpreadAttr (e : ElemModel) : ElemModel :=
  ⟨e.ancestors, e.attrs, e.spreadAttrs + 1⟩

/-- Applying one AfterStyleGeneration manipulation to the component
source.  A captureProperty manipulation belongs to the Before pass and
mutates only the style builder. -/
def applyAfterManip (src : CompSource) (m : ManipModel) : CompSource :=
  match m.action with
  | ManipAction.removeAttribute idx attr =>
    ⟨src.imports, modifyAt (removeAttr attr) idx src.elements,
      src.moduleStatements, src.bodyIdents⟩
  | ManipAction.insertSpread idx =>
    ⟨src.imports, modifyAt insertSpreadAttr idx src.elements,
      src.moduleStatements, src.bodyIdents⟩
  | ManipAction.removeStatement sid =>
    ⟨src.imports, src.elements,
      src.moduleStatements.filter (fun s => !(s == sid)), src.bodyIdents⟩
  | ManipAction.captureProperty _ _ => src

/-- The import-insertion manipulation of lines 733-738: one declaration of
the distinct collected component imports (all from the style module). -/
def addComponentImportsStmt (names : List String) (src : CompSource) : CompSource :=
  ⟨src.imports ++ [⟨distinct names, none⟩], src.elements,
    src.moduleStatements, src.bodyIdents⟩

/-- The pipeline of processSource and saveResults as it acts on the
component source: element loop, After pass, component-import insertion
(`styling` is pushed at line 728 after the analysis-collected names), then
unused-import pruning. -/
def runPipeline (src : CompSource) : Except String CompSource :=
  match processElements 0 src.elements with
  | Except.error msg => Except.error msg
  | Except.ok acc =>
    let afterManips := acc.manips.filter
      (fun m => m.pass == ManipulationPass.afterStyleGeneration)
    let src1 := afterManips.foldl applyAfterManip src
    let src2 := addComponentImportsStmt (acc.compImports ++ ["styling"]) src1
    Except.ok (removeUnusedImportsFile src2)

/-- Claim C9 counterexample: a component source with no markup elements at
all (hence no presentation attribute anywhere) and one import statement
whose specifier is never referenced.  The run still changes the source:
the pruning pass removes the unused import (after also adding and removing
the styling accessor import), so the rewritten source differs from the
input. -/
theorem extraction_changes_attrless_source :
    runPipeline ⟨[⟨["unusedHelper"], none⟩], [], [], []⟩
        = Except.ok ⟨[], [], [], []⟩
    ∧ (⟨[], [], [], []⟩ : CompSource) ≠ ⟨[⟨["unusedHelper"], none⟩], [], [], []⟩ := by
  refine ⟨rfl, ?_⟩
  intro h
  have := congrArg CompSource.imports h
  simp at this

theorem processAttrStep_none (idx : Nat) (e : ElemModel) (acc : ElemAcc) (a : String)
    (h : getAttribute e a = none) : processAttrStep idx e acc a = acc := by
  unfold processAttrStep
  rw [h]

theorem processElement_no_attrs (idx : Nat) (e : ElemModel)
    (hroot : ∀ msg, getRootFunction e.ancestors ≠ Except.error msg)
    (hattrs : ∀ a ∈ styleAttributes, getAttribute e a = none) :
    processElement idx e = Except.ok ⟨[], [], false⟩ := by
  have hfold : styleAttributes.foldl (processAttrStep idx e) ⟨[], [], false⟩
      = ⟨[], [], false⟩ := by
    have : ∀ (l : List String), (∀ a ∈ l, getAttribute e a = none) →
        ∀ acc : ElemAcc, l.foldl (processAttrStep idx e) acc = acc := by
      intro l
      induction l with
      | nil => intro _ acc; rfl
      | cons a rest ih =>
        intro hl acc
        rw [List.foldl_cons, processAttrStep_none idx e acc a (hl a (List.mem_cons_self a rest))]
        exact ih (fun b hb => hl b (List.mem_cons_of_mem a hb)) acc
    exact this styleAttributes hattrs _
  unfold processElement
  cases hr : getRootFunction e.ancestors with
  | error msg => exact absurd hr (hroot msg)
  | ok r =>
    rw [hfold]
    rfl

theorem processElements_no_attrs (start : Nat) (elems : List ElemModel)
    (hroot : ∀ e ∈ elems, ∀ msg, getRootFunction e.ancestors ≠ Except.error msg)
    (hattrs : ∀ e ∈ elems, ∀ a ∈ styleAttributes, getAttribute e a = none) :
    processElements start elems = Except.ok ⟨[], [], false⟩ := by
  induction elems generalizing start with
  | nil => rfl
  | cons e rest ih =>
    unfold processElements
    rw [processElement_no_attrs start e
      (hroot e (List.mem_cons_self e rest))
      (hattrs e (List.mem_cons_self e rest))]
    rw [ih (start + 1) (fun x hx => hroot x (List.mem_cons_of_mem e hx))
      (fun x hx => hattrs x (List.mem_cons_of_mem e hx))]
    rfl

/-- Claim C9 as amended: on a source whose markup elements carry no
presentation attribute (and whose Roots all resolve), the element loop
queues no manipulation at all — no spread insertion, no attribute removal,
no statement hoisting — and if additionally the input contains no import
the pruner would touch and its body does not reference the name
`styling`, the rewritten source equals the input: the one import the run
appends (the styling accessor import) is removed again by the pruning
pass. -/
theorem extraction_identity_on_attrless_source (src : CompSource)
    (hroot : ∀ e ∈ src.elements, ∀ msg, getRootFunction e.ancestors ≠ Except.error msg)
    (hattrs : ∀ e ∈ src.elements, ∀ a ∈ styleAttributes, getAttribute e a = none)
    (hpruned : removeUnusedImportsFile src = src)
    (hstyling : src.bodyIdents.count "styling" = 0) :
    processElements 0 src.elements = Except.ok ⟨[], [], false⟩
    ∧ runPipeline src = Except.ok src := by
  have hpe := processElements_no_attrs 0 src.elements hroot hattrs
  refine ⟨hpe, ?_⟩
  unfold runPipeline
  rw [hpe]
  have hstylingStmt : pruneStmt src.bodyIdents ⟨["styling"], none⟩ = none := by
    unfold pruneStmt importDeclModelOf
    simp only [List.map_cons, List.map_nil, Option.map_none']
    unfold namedBindingOf
    rw [hstyling]
    rfl
  have hfm : (src.imports ++ [(⟨["styling"], none⟩ : ImportStmtModel)]).filterMap
        (pruneStmt src.bodyIdents)
      = src.imports := by
    rw [List.filterMap_append]
    have h1 : src.imports.filterMap (pruneStmt src.bodyIdents) = src.imports := by
      have := congrArg CompSource.imports hpruned
      exact this
    rw [h1]
    simp [hstylingStmt]
  show Except.ok (removeUnusedImportsFile (addComponentImportsStmt ["styling"] src))
      = Except.ok src
  congr 1
  unfold addComponentImportsStmt removeUnusedImportsFile
  show (⟨(src.imports ++ [(⟨distinct ["styling"], none⟩ : ImportStmtModel)]).filterMap
      (pruneStmt src.bodyIdents),
    src.elements, src.moduleStatements, src.bodyIdents⟩ : CompSource) = src
  rw [show distinct ["styling"] = ["styling"] from rfl, hfm]

/-- Witness for C9 amended: a concrete attrless source with one
referenced import is returned unchanged. -/
theorem extraction_identity_witness :
    runPipeline ⟨[⟨["x"], none⟩],
        [⟨[⟨NodeKind.functionDeclaration, some "Card"⟩], [("id", ⟨false, [], []⟩)], 0⟩],
        [7], ["x"]⟩
      = Except.ok ⟨[⟨["x"], none⟩],
        [⟨[⟨NodeKind.functionDeclaration, some "Card"⟩], [("id", ⟨false, [], []⟩)], 0⟩],
        [7], ["x"]⟩ := by
  have h := extraction_identity_on_attrless_source
    ⟨[⟨["x"], none⟩],
      [⟨[⟨NodeKind.functionDeclaration, some "Card"⟩], [("id", ⟨false, [], []⟩)], 0⟩],
      [7], ["x"]⟩
    (by
      intro e he msg hc
      simp only [List.mem_singleton] at he
      rw [he] at hc
      exact Except.noConfusion hc)
    (by
      intro e he a ha
      simp only [List.mem_singleton] at he
      rw [he]
      fin_cases ha <;> rfl)
    (by rfl)
    (by rfl)
  exact h.2

end ExtractStyles
